import Mathlib

/-!
Verification of the End-to-End RAG pipeline against its specification.

The development shallowly embeds the pipeline's pure logic:

* `VectorStore.chunk_text` (src/vector_store.py, lines 20-33): the sliding
  token-window chunker.  Texts are represented by their token sequences
  (the output of `encoder.encode`); a chunk is the token window whose
  decode the source appends to the chunk list.  Python's
  `range(0, len(tokens), chunk_size - overlap)` raises `ValueError` when
  the step is zero and yields nothing when the step is negative, which the
  embedding reflects through an `Except` result.
* `VectorStore.add_documents` (lines 35-68): id/metadata assembly and the
  guarded batch insertion, with the embedding model abstracted to a
  function parameter and the persisted collection to a list of records.
* `VectorStore.search` (lines 70-88): result formatting over the
  vector-store collection's nearest-neighbor query.
* `JsonProcessor.load_publications_from_json` (src/json_processor.py,
  lines 5-37): the content-length filter, the field defaulting and the
  catch-all handler, with the file/parse outcome given as an `Except`.
* `RagPipeline.get_groq_response` (src/rag_pipeline.py, lines 89-105) and
  the interactive loop of `main` (lines 127-154), with the LLM call and
  the query turn given as `Except` outcomes (`Except.error` standing for a
  raised exception).
-/

/-- A token id produced by the tokenizer (`encoder.encode`). -/
abbrev Token := Nat

/-- Python's `str` on a natural number, as interpolated by the f-string
`f"{doc['id']}_{i}"` (src/vector_store.py, line 55): the decimal digits,
most significant first, and `"0"` for zero. -/
def decimalString (n : Nat) : String :=
  if n = 0 then "0"
  else ((Nat.digits 10 n).reverse.map Nat.digitChar).asString

namespace VectorStore

/-- The loop body of `chunk_text` (src/vector_store.py, lines 25-31).
At offset `i` the source takes `tokens[i : i + chunk_size]`, appends its
decode, and stops after appending once `i + chunk_size >= len(tokens)`;
otherwise the `range` advances `i` by the step `chunk_size - overlap`.
Here the (positive) step is written `sp + 1`, so `sp` stands for
`chunk_size - overlap - 1`. -/
def chunkTextAux (tokens : List Token) (chunk_size sp : Nat) (i : Nat) :
    List (List Token) :=
  if h : i < tokens.length then
    let chunk := (tokens.drop i).take chunk_size
    if tokens.length ≤ i + chunk_size then [chunk]
    else chunk :: chunkTextAux tokens chunk_size sp (i + (sp + 1))
  else []
termination_by tokens.length - i
decreasing_by omega

/-- `VectorStore.chunk_text` on the token sequence of the text
(src/vector_store.py, lines 20-33).  `range(0, len(tokens), step)` with
`step = chunk_size - overlap` raises `ValueError` for a zero step, is empty
for a negative step (so the loop body never runs), and otherwise drives the
sliding window. -/
def chunk_text (tokens : List Token) (chunk_size overlap : Nat) :
    Except String (List (List Token)) :=
  if chunk_size = overlap then Except.error "range() arg 3 must not be zero"
  else if chunk_size < overlap then Except.ok []
  else Except.ok (chunkTextAux tokens chunk_size (chunk_size - overlap - 1) 0)

/-- The chunker at the source's fixed call site, which uses the defaults
`chunk_size = 512`, `overlap = 50` (src/vector_store.py, line 43 calls
`self.chunk_text(doc['content'])`). -/
def defaultChunks (tokens : List Token) : List (List Token) :=
  chunkTextAux tokens 512 (512 - 50 - 1) 0

/-- The metadata dict built for each chunk (src/vector_store.py,
lines 47-54). -/
structure ChunkMetadata where
  publication_id : String
  title : String
  username : String
  source : String
  chunk_index : Nat
  total_chunks : Nat
deriving DecidableEq

/-- A document dict as consumed by `add_documents` (the shape produced by
the loader), with `content` already tokenized. -/
structure Document where
  id : String
  title : String
  username : String
  content : List Token
  source : String
deriving DecidableEq

/-- One record of the persistent chroma collection: id, embedding, stored
chunk text (as its token sequence) and metadata (src/vector_store.py,
lines 60-65). -/
structure IndexedRecord where
  id : String
  embedding : List Int
  text : List Token
  metadata : ChunkMetadata
deriving DecidableEq

/-- One formatted search result (src/vector_store.py, lines 82-86). -/
structure SearchResult where
  content : List Token
  metadata : ChunkMetadata
  distance : Int
deriving DecidableEq

/-- The (id, chunk, metadata) triples appended for one document by the
inner loop of `add_documents` (src/vector_store.py, lines 43-55): chunk
`i` gets the composite id `f"{doc['id']}_{i}"` and the metadata dict with
`chunk_index = i` and `total_chunks = len(chunks)`. -/
def docEntries (doc : Document) : List (String × List Token × ChunkMetadata) :=
  let chunks := defaultChunks doc.content
  chunks.enum.map (fun p =>
    (doc.id ++ "_" ++ decimalString p.1, p.2,
      ChunkMetadata.mk doc.id doc.title doc.username doc.source p.1
        chunks.length))

/-- `VectorStore.add_documents` (src/vector_store.py, lines 35-68): build
the parallel lists of chunks, metadata and ids over all documents, then,
only if at least one chunk exists, embed the chunks and add the records to
the collection; return `len(all_chunks)`.  The embedding model is the
abstract parameter `embed`; the persisted collection is the list
`collection`. -/
def add_documents (embed : List Token → List Int)
    (collection : List IndexedRecord) (documents : List Document) :
    List IndexedRecord × Nat :=
  let entries := documents.foldl (fun acc doc => acc ++ docEntries doc) []
  if entries.isEmpty then (collection, entries.length)
  else
    (collection ++ entries.map (fun e =>
      IndexedRecord.mk e.1 (embed e.2.1) e.2.1 e.2.2), entries.length)

/-- Squared euclidean distance between two embeddings, chroma's default
metric for `collection.query`. -/
def sqDist (xs ys : List Int) : Int :=
  ((xs.zip ys).map (fun p => (p.1 - p.2) * (p.1 - p.2))).sum

/-- Modelled from the spec: the external vector-store collection's
nearest-neighbor query (`self.collection.query`, src/vector_store.py,
lines 74-78, a call into chromadb whose code is not part of this
repository).  Per the spec it performs "a nearest-neighbor lookup against
the persisted collection" and returns "the top `n_results` matches ordered
by ascending distance (lower = more similar)": the stored records sorted
by ascending distance to the query embedding, truncated to `n_results`. -/
def collectionQuery (records : List IndexedRecord) (queryEmbedding : List Int)
    (n_results : Nat) : List IndexedRecord :=
  (records.mergeSort (fun r s =>
    decide (sqDist queryEmbedding r.embedding
      ≤ sqDist queryEmbedding s.embedding))).take n_results

/-- `VectorStore.search` (src/vector_store.py, lines 70-88): embed the
query, run the collection's nearest-neighbor lookup and format each
returned match as a dict with its stored text, metadata and distance,
preserving the returned order. -/
def search (embed : List Token → List Int) (records : List IndexedRecord)
    (query : List Token) (n_results : Nat) : List SearchResult :=
  (collectionQuery records (embed query) n_results).map
    (fun r => SearchResult.mk r.text r.metadata
      (sqDist (embed query) r.embedding))

end VectorStore

namespace JsonProcessor

/-- One raw JSON object of the input array; `none` stands for an absent
key, so that `publication.get(key, default)` is `Option.getD`. -/
structure RawPublication where
  publication_description : Option String
  title : Option String
  id : Option String
  username : Option String
deriving DecidableEq

/-- One structured document dict built by the loader
(src/json_processor.py, lines 24-30). -/
structure LoadedDocument where
  id : String
  title : String
  username : String
  content : String
  source : String
deriving DecidableEq

/-- The loop of `load_publications_from_json` over the parsed array
(src/json_processor.py, lines 13-30): extract the fields with their
defaults and append the document only when `len(content) > 100`. -/
def processRecords (data : List RawPublication) : List LoadedDocument :=
  data.foldl (fun documents publication =>
    let content := publication.publication_description.getD ""
    if 100 < content.length then
      documents ++ [LoadedDocument.mk (publication.id.getD "")
        (publication.title.getD "Untitled") (publication.username.getD "")
        content "json"]
    else documents) []

/-- `load_publications_from_json` (src/json_processor.py, lines 5-37).
The argument is the outcome of `open` plus `json.load`: `Except.error`
stands for any raised parse or I/O exception (malformed JSON, missing
file, encoding error), which the bare `except` catches, printing a message
and returning the empty list. -/
def load_publications_from_json
    (parsed : Except String (List RawPublication)) : List LoadedDocument :=
  match parsed with
  | Except.error _ => []
  | Except.ok data => processRecords data

end JsonProcessor

namespace RagPipeline

/-- `GroqRAGSystem._get_groq_response` (src/rag_pipeline.py,
lines 89-105).  The argument is the outcome of the
`chat.completions.create` call: `Except.ok` carries the returned message
content, `Except.error` stands for any raised exception, which the handler
converts into the in-band string `"Error generating response: " + str(e)`.
The function always returns a string: no exception escapes. -/
def get_groq_response (outcome : Except String String) : String :=
  match outcome with
  | Except.ok content => content
  | Except.error e => "Error generating response: " ++ e

deriving instance DecidableEq for Except

/-- What one iteration of the `while True` loop of `main` does with the
line it read. -/
inductive TurnResult where
  | exited : TurnResult
  | skipped : TurnResult
  | answered : Except String String → TurnResult
deriving DecidableEq

/-- Python's `str.strip()` with no argument: remove whitespace from both
ends.  Strings handled by the interactive loop are modelled as their
character sequences. -/
def pyStrip (s : List Char) : List Char :=
  ((s.dropWhile Char.isWhitespace).reverse.dropWhile Char.isWhitespace).reverse

/-- Python's `str.lower()` over the characters. -/
def pyLower (s : List Char) : List Char := s.map Char.toLower

/-- The sentinel list `['quit', 'exit', 'q']` of src/rag_pipeline.py,
line 130. -/
def sentinelWords : List (List Char) :=
  [['q', 'u', 'i', 't'], ['e', 'x', 'i', 't'], ['q']]

/-- One iteration of the interactive loop (src/rag_pipeline.py,
lines 127-154): strip the line; `break` when its lowercase form is in
`['quit', 'exit', 'q']`; `continue` when it is empty; otherwise run the
query turn inside `try`, so a raised exception (`Except.error`) is caught
and the loop continues. -/
def shellStep (runQuery : List Char → Except String String)
    (line : List Char) : TurnResult :=
  let question := pyStrip line
  if pyLower question ∈ sentinelWords then TurnResult.exited
  else if question = [] then TurnResult.skipped
  else TurnResult.answered (runQuery question)

/-- The interactive loop of `main` run over a finite script of input
lines: it stops at the first sentinel line and otherwise processes every
line. -/
def shellRun (runQuery : List Char → Except String String) :
    List (List Char) → List TurnResult
  | [] => []
  | line :: rest =>
    match shellStep runQuery line with
    | TurnResult.exited => [TurnResult.exited]
    | TurnResult.skipped => TurnResult.skipped :: shellRun runQuery rest
    | TurnResult.answered o => TurnResult.answered o :: shellRun runQuery rest

end RagPipeline

namespace VectorStore

theorem chunk_text_default (tokens : List Token) :
    chunk_text tokens 512 50 = Except.ok (defaultChunks tokens) := rfl

/-- The loop always appends at least one chunk once it starts inside the
token sequence. -/
theorem chunkTextAux_ne_nil (tokens : List Token) (C sp : Nat) (i : Nat)
    (hi : i < tokens.length) : chunkTextAux tokens C sp i ≠ [] := by
  rw [chunkTextAux, dif_pos hi]
  split <;> simp

/-- Number of chunks the loop appends from offset `i`: one chunk per step
until the window reaches the end of the token sequence. -/
theorem chunkTextAux_length (tokens : List Token) (C sp : Nat)
    (hC : sp + 1 ≤ C) :
    ∀ n i, tokens.length - i ≤ n → i < tokens.length →
      (chunkTextAux tokens C sp i).length
        = (tokens.length - C - i + sp) / (sp + 1) + 1 := by
  intro n
  induction n with
  | zero => intro i hn hi; omega
  | succ n ih =>
    intro i hn hi
    rw [chunkTextAux, dif_pos hi]
    by_cases hend : tokens.length ≤ i + C
    · rw [if_pos hend]
      have h0 : tokens.length - C - i = 0 := by omega
      rw [h0, Nat.zero_add, Nat.div_eq_of_lt (by omega)]
      simp
    · rw [if_neg hend]
      simp only [List.length_cons]
      rw [ih (i + (sp + 1)) (by omega) (by omega)]
      have hm : 1 ≤ tokens.length - C - i := by omega
      set m := tokens.length - C - i with hm_def
      have hrest : tokens.length - C - (i + (sp + 1)) = m - (sp + 1) := by
        omega
      rw [hrest]
      have hsplit : m + sp = (m - 1) + (sp + 1) := by omega
      rw [hsplit, Nat.add_div_right _ (Nat.succ_pos sp)]
      by_cases hsmall : m ≤ sp + 1
      · have h1 : m - (sp + 1) = 0 := by omega
        rw [h1, Nat.zero_add, Nat.div_eq_of_lt (by omega),
          Nat.div_eq_of_lt (by omega)]
      · have h2 : m - (sp + 1) + sp = (m - 1 - (sp + 1)) + (sp + 1) := by
          omega
        have h3 : m - 1 = (m - 1 - (sp + 1)) + (sp + 1) := by omega
        rw [h2, Nat.add_div_right _ (Nat.succ_pos sp), h3,
          Nat.add_div_right _ (Nat.succ_pos sp), Nat.add_sub_cancel]

theorem chunkTextAux_nil (C sp i : Nat) : chunkTextAux [] C sp i = [] := by
  rw [chunkTextAux]
  simp

/-- When the whole token sequence fits in one window the loop appends the
window `tokens[0 : chunk_size]`, which is the whole sequence, and stops. -/
theorem chunkTextAux_single (tokens : List Token) (C sp : Nat)
    (h0 : 0 < tokens.length) (hle : tokens.length ≤ C) :
    chunkTextAux tokens C sp 0 = [tokens] := by
  rw [chunkTextAux, dif_pos h0, if_pos (by omega)]
  simp [List.take_of_length_le hle]

/-- Every window the loop appends holds at most `chunk_size` tokens, and
every window before the final one holds exactly `chunk_size` tokens. -/
theorem chunkTextAux_sizes (tokens : List Token) (C sp : Nat)
    (hC : sp + 1 ≤ C) :
    ∀ n i, tokens.length - i ≤ n → i < tokens.length →
      (∀ c ∈ chunkTextAux tokens C sp i, c.length ≤ C) ∧
      (∀ c ∈ (chunkTextAux tokens C sp i).dropLast, c.length = C) := by
  intro n
  induction n with
  | zero => intro i hn hi; omega
  | succ n ih =>
    intro i hn hi
    rw [chunkTextAux, dif_pos hi]
    by_cases hend : tokens.length ≤ i + C
    · rw [if_pos hend]
      refine ⟨?_, by simp⟩
      intro c hc
      rw [List.mem_singleton] at hc
      subst hc
      simp only [List.length_take, List.length_drop]
      omega
    · rw [if_neg hend]
      have hrec := ih (i + (sp + 1)) (by omega) (by omega)
      have hlen : ((tokens.drop i).take C).length = C := by
        simp only [List.length_take, List.length_drop]
        omega
      constructor
      · intro c hc
        rcases List.mem_cons.mp hc with h | h
        · subst h; omega
        · exact hrec.1 c h
      · rw [List.dropLast_cons_of_ne_nil
          (chunkTextAux_ne_nil tokens C sp _ (by omega))]
        intro c hc
        rcases List.mem_cons.mp hc with h | h
        · subst h; exact hlen
        · exact hrec.2 c h

/-- C1 (amended): for `overlap < chunk_size`, a NONEMPTY token sequence of
length `L ≤ chunk_size` yields exactly one chunk equal to the whole
sequence; `L > chunk_size` yields `ceil((L - overlap) / (chunk_size -
overlap))` chunks; the empty token sequence yields no chunk at all. -/
theorem chunk_text_count_spec (tokens : List Token) (C O : Nat) (hO : O < C) :
    (tokens ≠ [] → tokens.length ≤ C →
      chunk_text tokens C O = Except.ok [tokens]) ∧
    (C < tokens.length →
      chunk_text tokens C O = Except.ok (chunkTextAux tokens C (C - O - 1) 0) ∧
      (chunkTextAux tokens C (C - O - 1) 0).length
        = (tokens.length - O + (C - O) - 1) / (C - O)) ∧
    (tokens = [] → chunk_text tokens C O = Except.ok []) := by
  have hne : ¬ C = O := by omega
  have hnlt : ¬ C < O := by omega
  refine ⟨?_, ?_, ?_⟩
  · intro h1 h2
    rw [chunk_text, if_neg hne, if_neg hnlt,
      chunkTextAux_single tokens C _ (List.length_pos.mpr h1) h2]
  · intro hCL
    refine ⟨by rw [chunk_text, if_neg hne, if_neg hnlt], ?_⟩
    rw [chunkTextAux_length tokens C _ (by omega) tokens.length 0 (by omega)
      (by omega)]
    have hd : C - O - 1 + 1 = C - O := by omega
    have hnum : tokens.length - O + (C - O) - 1
        = (tokens.length - C - 0 + (C - O - 1)) + (C - O) := by omega
    rw [hd, hnum, Nat.add_div_right _ (by omega : 0 < C - O)]
  · intro h
    subst h
    rw [chunk_text, if_neg hne, if_neg hnlt, chunkTextAux_nil]

theorem chunk_text_count_spec_witness :
    VectorStore.chunk_text [5] 2 1 = Except.ok [[5]] ∧
    (VectorStore.chunkTextAux [0, 1, 2] 2 0 0).length = 2 :=
  ⟨(chunk_text_count_spec [5] 2 1 (by decide)).1 (by decide) (by decide),
    ((chunk_text_count_spec [0, 1, 2] 2 1 (by decide)).2.1 (by decide)).2⟩

/-- C1 counterexample: the empty text has token length `0 ≤ 512`, yet
`chunk_text` produces no chunk at all rather than exactly one chunk equal
to the whole text. -/
theorem chunk_text_empty_cex :
    List.length ([] : List Token) ≤ 512 ∧
    chunk_text [] 512 50 = Except.ok [] ∧
    (Except.ok ([] : List (List Token)) : Except String (List (List Token)))
      ≠ Except.ok [([] : List Token)] := by
  refine ⟨by simp, ?_, by simp⟩
  rw [chunk_text_default]
  rw [defaultChunks, chunkTextAux_nil]

/-- C8: with `overlap < chunk_size`, on a nonempty token sequence every
chunk comes from at most `chunk_size` tokens, and every chunk except
possibly the last from exactly `chunk_size` tokens. -/
theorem chunk_text_chunk_sizes (tokens : List Token) (C O : Nat)
    (hO : O < C) (hne : tokens ≠ []) :
    chunk_text tokens C O = Except.ok (chunkTextAux tokens C (C - O - 1) 0) ∧
    (∀ c ∈ chunkTextAux tokens C (C - O - 1) 0, c.length ≤ C) ∧
    (∀ c ∈ (chunkTextAux tokens C (C - O - 1) 0).dropLast, c.length = C) := by
  have h0 : 0 < tokens.length := List.length_pos.mpr hne
  have h := chunkTextAux_sizes tokens C (C - O - 1) (by omega) tokens.length 0
    (by omega) (by omega)
  exact ⟨by rw [chunk_text, if_neg (by omega), if_neg (by omega)], h.1, h.2⟩

theorem chunk_text_chunk_sizes_witness :
    VectorStore.chunk_text [0, 1, 2] 2 1
      = Except.ok (VectorStore.chunkTextAux [0, 1, 2] 2 0 0) :=
  (chunk_text_chunk_sizes [0, 1, 2] 2 1 (by decide) (by decide)).1

/-- C9: the chunker cannot run forever.  With `overlap = chunk_size` the
zero `range` step makes the source raise `ValueError` before the loop
starts; with `overlap > chunk_size` the negative-step `range` is empty, so
every text (in particular every non-empty one) yields the empty chunk
list. -/
theorem chunk_text_degenerate_spec (tokens : List Token) (C O : Nat) :
    chunk_text tokens C C = Except.error "range() arg 3 must not be zero" ∧
    (C < O → tokens ≠ [] → chunk_text tokens C O = Except.ok []) := by
  constructor
  · rw [chunk_text, if_pos rfl]
  · intro h hne
    rw [chunk_text, if_neg (by omega), if_pos h]

theorem chunk_text_degenerate_spec_witness :
    VectorStore.chunk_text [7] 5 5
      = Except.error "range() arg 3 must not be zero" ∧
    VectorStore.chunk_text [7] 5 8 = Except.ok [] :=
  ⟨(chunk_text_degenerate_spec [7] 5 5).1,
    (chunk_text_degenerate_spec [7] 5 8).2 (by decide) (by decide)⟩

end VectorStore

theorem digitChar_inj_lt :
    ∀ a, a < 10 → ∀ b, b < 10 → Nat.digitChar a = Nat.digitChar b → a = b := by
  decide

theorem map_digitChar_inj :
    ∀ l1 l2 : List Nat, (∀ x ∈ l1, x < 10) → (∀ x ∈ l2, x < 10) →
      l1.map Nat.digitChar = l2.map Nat.digitChar → l1 = l2 := by
  intro l1
  induction l1 with
  | nil =>
    intro l2 _ _ h
    cases l2 with
    | nil => rfl
    | cons b t => simp at h
  | cons a t ih =>
    intro l2 h1 h2 h
    cases l2 with
    | nil => simp at h
    | cons b t2 =>
      simp only [List.map_cons, List.cons.injEq] at h
      have ha : a < 10 := h1 a (by simp)
      have hb : b < 10 := h2 b (by simp)
      have hab : a = b := digitChar_inj_lt a ha b hb h.1
      subst hab
      rw [ih t2 (fun x hx => h1 x (by simp [hx]))
        (fun x hx => h2 x (by simp [hx])) h.2]

theorem decimalString_zero : decimalString 0 = "0" := rfl

theorem decimalString_data (n : Nat) (hn : n ≠ 0) :
    (decimalString n).data = (Nat.digits 10 n).reverse.map Nat.digitChar := by
  rw [decimalString, if_neg hn]
  rfl

/-- No nonzero number prints as `"0"`: the most significant decimal digit
of a nonzero number is nonzero. -/
theorem decimalString_ne_zero_string (n : Nat) (hn : n ≠ 0) :
    decimalString n ≠ "0" := by
  intro h
  have hd := congrArg String.data h
  rw [decimalString_data n hn] at hd
  have hlen := congrArg List.length hd
  simp only [List.length_map, List.length_reverse] at hlen
  have h1 : (Nat.digits 10 n).length = 1 := by
    rw [hlen]
    rfl
  obtain ⟨d, hd1⟩ := List.length_eq_one.mp h1
  rw [hd1] at hd
  simp only [List.reverse_cons, List.reverse_nil, List.nil_append,
    List.map_cons, List.map_nil] at hd
  have hdd : Nat.digitChar d = '0' := by
    have := congrArg (fun l => l.headD 'x') hd
    simpa using this
  have hdlt : d < 10 :=
    Nat.digits_lt_base (by norm_num) (by rw [hd1]; simp)
  have hd0 : d = 0 := digitChar_inj_lt d hdlt 0 (by norm_num) (by rw [hdd]; rfl)
  have hofd : n = Nat.ofDigits 10 (Nat.digits 10 n) :=
    (Nat.ofDigits_digits 10 n).symm
  rw [hd1, hd0] at hofd
  simp [Nat.ofDigits] at hofd
  exact hn hofd

theorem decimalString_injective : Function.Injective decimalString := by
  intro m n h
  by_cases hm : m = 0 <;> by_cases hn : n = 0
  · rw [hm, hn]
  · exact absurd (by rw [← h, hm, decimalString_zero])
      (decimalString_ne_zero_string n hn)
  · exact absurd (by rw [h, hn, decimalString_zero])
      (decimalString_ne_zero_string m hm)
  · have hd := congrArg String.data h
    rw [decimalString_data m hm, decimalString_data n hn] at hd
    have hrev := map_digitChar_inj _ _
      (fun x hx => Nat.digits_lt_base (by norm_num) (List.mem_reverse.mp hx))
      (fun x hx => Nat.digits_lt_base (by norm_num) (List.mem_reverse.mp hx))
      hd
    have hdig := List.reverse_injective hrev
    have := congrArg (Nat.ofDigits 10) hdig
    rwa [Nat.ofDigits_digits, Nat.ofDigits_digits] at this

/-- For a fixed document id, the composite id `f"{doc['id']}_{i}"` is an
injective function of the chunk index. -/
theorem compositeId_injective (s : String) :
    Function.Injective (fun i => s ++ "_" ++ decimalString i) := by
  intro a b h
  have hd := congrArg String.data h
  simp only [String.data_append, List.append_assoc] at hd
  have h2 := List.append_cancel_left hd
  have h3 := List.append_cancel_left h2
  exact decimalString_injective (String.ext h3)

namespace VectorStore

/-- The ids appended for one document are the composite ids of the chunk
indices `0, ..., len(chunks) - 1` in order. -/
theorem docEntries_ids (doc : Document) :
    (docEntries doc).map (fun e => e.1)
      = (List.range (defaultChunks doc.content).length).map
          (fun i => doc.id ++ "_" ++ decimalString i) := by
  rw [docEntries]
  simp only [List.map_map]
  rw [← List.enum_map_fst (defaultChunks doc.content), List.map_map]
  rfl

/-- C3 sub-property: the composite ids assigned within one `add` call for
a given document are pairwise distinct. -/
theorem docEntries_ids_nodup (doc : Document) :
    ((docEntries doc).map (fun e => e.1)).Nodup := by
  rw [docEntries_ids]
  exact (List.nodup_range _).map (compositeId_injective doc.id)

theorem docEntries_length (doc : Document) :
    (docEntries doc).length = (defaultChunks doc.content).length := by
  rw [docEntries]
  simp [List.enum_length]

/-- The entry for chunk `i` of a document: composite id
`f"{doc['id']}_{i}"`, the chunk itself, and the metadata dict with
`chunk_index = i`, `total_chunks = len(chunks)`. -/
theorem docEntries_mem (doc : Document) (i : Nat)
    (hi : i < (defaultChunks doc.content).length) :
    (doc.id ++ "_" ++ decimalString i,
      (defaultChunks doc.content).get ⟨i, hi⟩,
      ChunkMetadata.mk doc.id doc.title doc.username doc.source i
        (defaultChunks doc.content).length) ∈ docEntries doc := by
  rw [docEntries]
  have hienum : i < (defaultChunks doc.content).enum.length := by
    rw [List.enum_length]
    exact hi
  have hval : (defaultChunks doc.content).enum.get ⟨i, hienum⟩
      = (i, (defaultChunks doc.content).get ⟨i, hi⟩) := by
    simp [List.get_eq_getElem, List.getElem_enum]
  refine List.mem_map.mpr
    ⟨(i, (defaultChunks doc.content).get ⟨i, hi⟩), ?_, rfl⟩
  rw [← hval]
  exact List.get_mem _ _ _

/-- The accumulated `all_*` lists of `add_documents` are the concatenation
of the per-document entries. -/
theorem allEntries_eq (documents : List Document) :
    documents.foldl (fun acc doc => acc ++ docEntries doc) []
      = (documents.map docEntries).flatten := by
  suffices h : ∀ acc, documents.foldl (fun acc doc => acc ++ docEntries doc)
      acc = acc ++ (documents.map docEntries).flatten by
    simpa using h []
  induction documents with
  | nil => intro acc; simp
  | cons d rest ih =>
    intro acc
    simp only [List.foldl_cons, List.map_cons, List.flatten_cons]
    rw [ih]
    simp [List.append_assoc]

/-- C3: within one `add_documents` call, chunk `i` of document `d` is
assigned the composite id `d.id ++ "_" ++ str(i)` with the metadata fields
publication_id, title, username, source, `chunk_index = i` and
`total_chunks` = the number of chunks of `d`; the ids assigned for a
single document are pairwise distinct; each entry is inserted into the
collection with its embedding; and the returned count is the total number
of chunks over all documents. -/
theorem add_documents_spec (embed : List Token → List Int)
    (collection : List IndexedRecord) (documents : List Document)
    (doc : Document) (hd : doc ∈ documents) :
    (∀ i (hi : i < (defaultChunks doc.content).length),
      (doc.id ++ "_" ++ decimalString i,
        (defaultChunks doc.content).get ⟨i, hi⟩,
        ChunkMetadata.mk doc.id doc.title doc.username doc.source i
          (defaultChunks doc.content).length) ∈ docEntries doc) ∧
    ((docEntries doc).map (fun e => e.1)).Nodup ∧
    (∀ e ∈ docEntries doc,
      IndexedRecord.mk e.1 (embed e.2.1) e.2.1 e.2.2
        ∈ (add_documents embed collection documents).1) ∧
    (add_documents embed collection documents).2
      = (documents.map (fun d => (defaultChunks d.content).length)).sum := by
  refine ⟨fun i hi => docEntries_mem doc i hi, docEntries_ids_nodup doc,
    ?_, ?_⟩
  · intro e he
    have hent : e ∈ documents.foldl (fun acc d => acc ++ docEntries d) [] := by
      rw [allEntries_eq]
      exact List.mem_flatten.mpr
        ⟨docEntries doc, List.mem_map_of_mem _ hd, he⟩
    have hne : (documents.foldl (fun acc d => acc ++ docEntries d)
        []).isEmpty = false := by
      rw [List.isEmpty_eq_false]
      intro hnil
      rw [hnil] at hent
      simp at hent
    simp only [add_documents, hne, Bool.false_eq_true, if_false]
    exact List.mem_append_right _ (List.mem_map_of_mem _ hent)
  · have hsnd : (add_documents embed collection documents).2
        = (documents.foldl (fun acc d => acc ++ docEntries d) []).length := by
      simp only [add_documents]
      split <;> rfl
    rw [hsnd, allEntries_eq, List.length_flatten, List.map_map]
    exact congrArg List.sum
      (List.map_congr_left (fun d _ => docEntries_length d))

theorem add_documents_spec_witness :
    ((VectorStore.docEntries
      (VectorStore.Document.mk "d" "t" "u" [1, 2] "json")).map
        (fun e => e.1)).Nodup :=
  (add_documents_spec (fun _ => []) []
    [Document.mk "d" "t" "u" [1, 2] "json"]
    (Document.mk "d" "t" "u" [1, 2] "json")
    (List.mem_singleton.mpr rfl)).2.1

theorem docEntries_of_nil_content (doc : Document) (h : doc.content = []) :
    docEntries doc = [] := by
  rw [docEntries, h]
  simp [defaultChunks, chunkTextAux_nil]

/-- C10: for the empty document list, or any input all of whose documents
produce zero chunks, `add_documents` returns 0 and performs no insertion:
the collection is returned unchanged. -/
theorem add_documents_empty_spec (embed : List Token → List Int)
    (collection : List IndexedRecord) (documents : List Document)
    (hall : ∀ d ∈ documents, d.content = []) :
    add_documents embed collection [] = (collection, 0) ∧
    add_documents embed collection documents = (collection, 0) := by
  constructor
  · rfl
  · have hent : documents.foldl (fun acc d => acc ++ docEntries d) [] = [] := by
      rw [allEntries_eq, List.flatten_eq_nil_iff]
      intro l hl
      obtain ⟨d, hdm, rfl⟩ := List.mem_map.mp hl
      exact docEntries_of_nil_content d (hall d hdm)
    simp [add_documents, hent]

theorem add_documents_empty_spec_witness :
    VectorStore.add_documents (fun _ => [])
      [IndexedRecord.mk "x" [] [] (ChunkMetadata.mk "p" "t" "u" "s" 0 1)]
      [Document.mk "d" "t" "u" [] "json"]
    = ([IndexedRecord.mk "x" [] [] (ChunkMetadata.mk "p" "t" "u" "s" 0 1)],
        0) :=
  (add_documents_empty_spec (fun _ => [])
    [IndexedRecord.mk "x" [] [] (ChunkMetadata.mk "p" "t" "u" "s" 0 1)]
    [Document.mk "d" "t" "u" [] "json"]
    (by intro d hdm; rw [List.mem_singleton] at hdm; subst hdm; rfl)).2

end VectorStore

namespace VectorStore

/-- C2: `search(q, n)` returns at most `n` results, the returned list is
sorted by non-decreasing distance, and every result carries the stored
chunk text and metadata (and distance) of some record of the persisted
collection. -/
theorem search_spec (embed : List Token → List Int)
    (records : List IndexedRecord) (query : List Token) (n_results : Nat) :
    (search embed records query n_results).length ≤ n_results ∧
    List.Pairwise (fun a b => a.distance ≤ b.distance)
      (search embed records query n_results) ∧
    ∀ r ∈ search embed records query n_results,
      ∃ rec ∈ records, r.content = rec.text ∧ r.metadata = rec.metadata ∧
        r.distance = sqDist (embed query) rec.embedding := by
  refine ⟨?_, ?_, ?_⟩
  · simp only [search, collectionQuery, List.length_map, List.length_take]
    exact inf_le_left
  · have htrans : ∀ a b c : IndexedRecord,
        decide (sqDist (embed query) a.embedding
          ≤ sqDist (embed query) b.embedding) = true →
        decide (sqDist (embed query) b.embedding
          ≤ sqDist (embed query) c.embedding) = true →
        decide (sqDist (embed query) a.embedding
          ≤ sqDist (embed query) c.embedding) = true := by
      intro a b c h1 h2
      simp only [decide_eq_true_eq] at h1 h2 ⊢
      exact le_trans h1 h2
    have htotal : ∀ a b : IndexedRecord,
        (decide (sqDist (embed query) a.embedding
            ≤ sqDist (embed query) b.embedding)
          || decide (sqDist (embed query) b.embedding
            ≤ sqDist (embed query) a.embedding)) = true := by
      intro a b
      simp only [Bool.or_eq_true, decide_eq_true_eq]
      exact le_total _ _
    have hsorted := List.sorted_mergeSort htrans htotal records
    have htake := List.Pairwise.sublist
      (List.take_sublist n_results _) hsorted
    rw [search, List.pairwise_map]
    refine htake.imp ?_
    intro a b hab
    simp only [decide_eq_true_eq] at hab
    exact hab
  · intro r hr
    simp only [search, List.mem_map] at hr
    obtain ⟨rec, hrec, rfl⟩ := hr
    simp only [collectionQuery] at hrec
    have hmem : rec ∈ records :=
      (List.mergeSort_perm records _).mem_iff.mp (List.mem_of_mem_take hrec)
    exact ⟨rec, hmem, rfl, rfl, rfl⟩

theorem search_spec_witness :
    (VectorStore.search (fun _ => []) [] [] 3).length ≤ 3 :=
  (search_spec (fun _ => []) [] [] 3).1

end VectorStore

namespace JsonProcessor

/-- The append-style loop of the loader is the filter-and-map of the
inclusion rule over the parsed array. -/
theorem processRecords_eq (data : List RawPublication) :
    processRecords data = data.filterMap (fun publication =>
      let content := publication.publication_description.getD ""
      if 100 < content.length then
        some (LoadedDocument.mk (publication.id.getD "")
          (publication.title.getD "Untitled")
          (publication.username.getD "") content "json")
      else none) := by
  suffices h : ∀ acc, data.foldl (fun documents publication =>
      let content := publication.publication_description.getD ""
      if 100 < content.length then
        documents ++ [LoadedDocument.mk (publication.id.getD "")
          (publication.title.getD "Untitled")
          (publication.username.getD "") content "json"]
      else documents) acc
      = acc ++ data.filterMap (fun publication =>
          let content := publication.publication_description.getD ""
          if 100 < content.length then
            some (LoadedDocument.mk (publication.id.getD "")
              (publication.title.getD "Untitled")
              (publication.username.getD "") content "json")
          else none) by
    simpa [processRecords] using h []
  induction data with
  | nil => intro acc; simp
  | cons p rest ih =>
    intro acc
    simp only [List.foldl_cons, List.filterMap_cons]
    by_cases h : 100 < (p.publication_description.getD "").length
    · simp only [if_pos h]
      rw [ih]
      simp [List.append_assoc]
    · simp only [if_neg h]
      rw [ih]

/-- C4: a parsed record is included exactly when its
`publication_description` (defaulting to the empty string when absent, and
mapped to `content`) is longer than 100 characters; missing `title`,
`username` and `id` default to `"Untitled"`, `""` and `""`; the loader is
a total function, so no error is raised for missing optional fields. -/
theorem loader_filter_spec (data : List RawPublication) :
    load_publications_from_json (Except.ok data)
      = data.filterMap (fun publication =>
          let content := publication.publication_description.getD ""
          if 100 < content.length then
            some (LoadedDocument.mk (publication.id.getD "")
              (publication.title.getD "Untitled")
              (publication.username.getD "") content "json")
          else none) ∧
    ∀ p : RawPublication,
      processRecords [p] ≠ [] ↔
        100 < (p.publication_description.getD "").length := by
  constructor
  · exact processRecords_eq data
  · intro p
    rw [processRecords_eq [p]]
    by_cases h : 100 < (p.publication_description.getD "").length
    · simp [h]
    · simp [h]

theorem loader_filter_spec_witness :
    JsonProcessor.processRecords
      [RawPublication.mk (some "x") none none none] = [] ∧
    JsonProcessor.processRecords
      [RawPublication.mk
        (some (String.mk (List.replicate 101 'a'))) none none none]
      = [LoadedDocument.mk "" "Untitled" ""
          (String.mk (List.replicate 101 'a')) "json"] := by
  constructor
  · have h := (loader_filter_spec []).2
      (RawPublication.mk (some "x") none none none)
    by_contra hc
    exact absurd (h.mp hc) (by decide)
  · rfl

/-- C5: every parse or I/O failure reaches the bare `except` handler, which
returns the empty sequence instead of re-raising; in particular a
nonexistent path (whose `open` raises `FileNotFoundError`) yields the empty
sequence.  The embedding is a total function into `List LoadedDocument`,
so no exception can propagate. -/
theorem loader_error_spec (msg : String) :
    load_publications_from_json (Except.error msg) = [] := rfl

end JsonProcessor

namespace RagPipeline

/-- C6: an exception raised by the LLM call is caught and converted into
the in-band string `"Error generating response: " + str(e)`, returned as
if it were the answer, while a successful call returns the message
content; `_get_groq_response` is total, so no exception propagates to
`query`, which returns this string as the response. -/
theorem groq_response_spec :
    (∀ e : String, get_groq_response (Except.error e)
        = "Error generating response: " ++ e) ∧
    ∀ content : String, get_groq_response (Except.ok content) = content :=
  ⟨fun _ => rfl, fun _ => rfl⟩

/-- C7: a turn exits the loop exactly when the stripped, lowercased input
is one of the sentinel words; blank input is skipped without invoking the
query engine; non-blank, non-sentinel input invokes the query engine and
the turn completes even when the query raises (`runQuery` may return
`Except.error`); and a script with no sentinel line is processed to the
end without the loop ever terminating. -/
theorem shell_loop_spec (runQuery : List Char → Except String String)
    (line : List Char) (inputs : List (List Char))
    (hns : ∀ t ∈ inputs, pyLower (pyStrip t) ∉ sentinelWords) :
    (shellStep runQuery line = TurnResult.exited ↔
      pyLower (pyStrip line) ∈ sentinelWords) ∧
    (pyStrip line = [] → shellStep runQuery line = TurnResult.skipped) ∧
    (pyStrip line ≠ [] → pyLower (pyStrip line) ∉ sentinelWords →
      shellStep runQuery line
        = TurnResult.answered (runQuery (pyStrip line))) ∧
    (shellRun runQuery inputs).length = inputs.length ∧
    TurnResult.exited ∉ shellRun runQuery inputs := by
  have hstep_ne : ∀ t : List Char, pyLower (pyStrip t) ∉ sentinelWords →
      shellStep runQuery t ≠ TurnResult.exited := by
    intro t ht
    simp only [shellStep, if_neg ht]
    split <;> simp
  have hrun : (shellRun runQuery inputs).length = inputs.length ∧
      TurnResult.exited ∉ shellRun runQuery inputs := by
    induction inputs with
    | nil => exact ⟨rfl, by simp [shellRun]⟩
    | cons t rest ih =>
      have hts := hns t (by simp)
      have hr := ih (fun x hx => hns x (by simp [hx]))
      rcases hcase : shellStep runQuery t with _ | _ | o
      · exact absurd hcase (hstep_ne t hts)
      · refine ⟨?_, ?_⟩
        · simp [shellRun, hcase, hr.1]
        · simp only [shellRun, hcase, List.mem_cons]
          rintro (h | h)
          · exact TurnResult.noConfusion h
          · exact hr.2 h
      · refine ⟨?_, ?_⟩
        · simp [shellRun, hcase, hr.1]
        · simp only [shellRun, hcase, List.mem_cons]
          rintro (h | h)
          · exact TurnResult.noConfusion h
          · exact hr.2 h
  refine ⟨?_, ?_, ?_, hrun.1, hrun.2⟩
  · constructor
    · intro h
      by_contra hc
      exact absurd h (hstep_ne line hc)
    · intro h
      simp [shellStep, h]
  · intro h
    have hnotin : pyLower ([] : List Char) ∉ sentinelWords := by decide
    simp [shellStep, h, hnotin]
  · intro h1 h2
    simp only [shellStep, if_neg h2, if_neg h1]

theorem shell_loop_spec_witness :
    RagPipeline.shellStep (fun _ => Except.error "boom") " Quit ".data
      = RagPipeline.TurnResult.exited ∧
    (RagPipeline.shellRun (fun _ => Except.error "boom")
      ["hello".data, "".data]).length = 2 :=
  ⟨(shell_loop_spec (fun _ => Except.error "boom") " Quit ".data []
      (by simp)).1.mpr (by decide),
    (shell_loop_spec (fun _ => Except.error "boom") "x".data
      ["hello".data, "".data] (by decide)).2.2.2.1⟩

end RagPipeline
